import Mathlib

/-!
# Ligolo local relay: session pool and forwarding engine

A shallow embedding of `cmd/localrelay/main.go`.

* Go strings are byte sequences (`GoString`).
* The Go map `ConnectionPool` is an association list read with
  first-match-wins; `len` counts distinct keys, `m[k] = v` replaces the
  binding of `k`, `delete(m, k)` drops it.
* A `*yamux.Session` field is `Option YamuxSession`, `none` being `nil`.
* `sync.Mutex` is a held/free flag; `Lock()` on a held mutex does not proceed.
* Effects on collaborators (operator dialogue, connections, streams,
  goroutines) are recorded in a trace of `Event`s.
* The loop counter `i` of the registration loop is a Go `int`; the loop stops
  after at most `len(ConnectionPool) + 1` rounds, far below `2^63`, so it is
  modelled by a natural number.
-/

namespace Ligolo

/-! ## Strings -/

/-- Go `byte`. -/
abbrev Byte := Fin 256

/-- Go `string`: an immutable sequence of bytes. -/
abbrev GoString := List Byte

/-- The ASCII byte of a decimal digit. -/
def digitByte (d : Nat) : Byte := ⟨(48 + d) % 256, Nat.mod_lt _ (by decide)⟩

/-- The digit loop of `strconv.Itoa` on a non-negative `int`: digits are produced
from the least significant one and written in front of those already there. -/
def itoaLoop : Nat → Nat → GoString → GoString
  | 0, _, acc => acc
  | fuel + 1, n, acc =>
    if n < 10 then digitByte n :: acc
    else itoaLoop fuel (n / 10) (digitByte (n % 10) :: acc)

/-- Decimal rendering `strconv.Itoa` of a non-negative `int`: most significant digit
first, no leading zero, `"0"` for zero. -/
def Itoa (n : Nat) : GoString :=
  itoaLoop (n + 1) n []

/-- The number a string of decimal digits stands for. -/
def decimalValue (s : GoString) : Nat :=
  s.foldl (fun a b => 10 * a + (b.val - 48)) 0

/-- The string `"-"`. -/
def dash : GoString := [45]

/-! ## Sessions and the Go map -/

/-- A live (non-nil) `*yamux.Session`, identified by its address. -/
structure YamuxSession where
  addr : Nat
deriving DecidableEq, Repr

/-- A Go `error` value (non-nil). -/
structure GoError where
  code : Nat
deriving DecidableEq, Repr

/-- The type `map[string]*yamux.Session`. -/
abbrev SessionMap := List (GoString × YamuxSession)

/-- Map read `m[k]`; `none` is the zero value `nil` returned for a missing key. The
values stored are live sessions, so the comma-ok test `_, ok := m[k]` succeeds
exactly when the read is not `none`. -/
def mapGet : SessionMap → GoString → Option YamuxSession
  | [], _ => none
  | (k', v) :: m, k => if k' = k then some v else mapGet m k

/-- Map write `m[k] = v`. -/
def mapSet (m : SessionMap) (k : GoString) (v : YamuxSession) : SessionMap :=
  (k, v) :: m.filter (fun e => e.1 ≠ k)

/-- Map removal `delete(m, k)`. -/
def mapDelete (m : SessionMap) (k : GoString) : SessionMap :=
  m.filter (fun e => e.1 ≠ k)

/-- The keys visited by `for i := range m`, each once. -/
def mapKeys (m : SessionMap) : List GoString :=
  (m.map Prod.fst).dedup

/-- Map size `len(m)`. -/
def mapLen (m : SessionMap) : Nat :=
  (mapKeys m).length

/-! ## The relay state -/

/-- The mutable fields of `LigoloRelay`. -/
structure LigoloRelay where
  ConnectionPool : SessionMap
  Session : Option YamuxSession
  Mutex : Bool
  CurrentSession : GoString
deriving DecidableEq

/-- Observable effects on collaborators. -/
inductive Event where
  | lock
  | unlock
  | removeSession
  | selectSession
  | prompt (items : List GoString) (mutexHeld : Bool)
  | connClose
  | streamOpen (ok : Bool)
  | relayStart (fromConn : Bool)
deriving DecidableEq

/-- How a call ends. -/
inductive Outcome (α : Type) where
  | returned (v : α)
  | lockWait
  | sleeping
  | panicked
  | outOfFuel
deriving DecidableEq

/-- A call's final state, its effects in order, and how it ended. -/
structure Run (α : Type) where
  state : LigoloRelay
  trace : List Event
  outcome : Outcome α

/-! ## Registration (`startRelayHandler`, lines 178-189) -/

/-- The loop `for i := 1; ; i++` of `startRelayHandler`: `hostname` is the
candidate under test, `i` the loop counter. -/
def registerLoop (pool : SessionMap) (tmp : GoString) : Nat → GoString → Nat → Option GoString
  | 0, _, _ => none
  | fuel + 1, hostname, i =>
    if (mapGet pool hostname).isSome then
      registerLoop pool tmp fuel (tmp ++ dash ++ Itoa i) (i + 1)
    else
      some hostname

/-- The registration step of `startRelayHandler`. -/
def register (fuel : Nat) (hostname : GoString) (session : YamuxSession)
    (st : LigoloRelay) : Run GoString :=
  if st.Mutex then
    ⟨st, [], .lockWait⟩
  else
    let st1 := { st with Mutex := true }
    match registerLoop st1.ConnectionPool hostname fuel hostname 1 with
    | none => ⟨st1, [.lock], .outOfFuel⟩
    | some h =>
      let st2 := { st1 with ConnectionPool := mapSet st1.ConnectionPool h session }
      ⟨{ st2 with Mutex := false }, [.lock, .unlock], .returned h⟩

/-- The k-th candidate identifier: `p`, `p-1`, `p-2`, ... -/
def candidate (p : GoString) : Nat → GoString
  | 0 => p
  | k + 1 => p ++ dash ++ Itoa (k + 1)

/-- Successive registrations, one per session of the list, all proposing `base`;
the identifiers assigned, in order, and the final state. -/
def registerAll (fuel : Nat) (base : GoString) :
    List YamuxSession → LigoloRelay → Option (List GoString × LigoloRelay)
  | [], st => some ([], st)
  | s :: ss, st =>
    match (register fuel base s st).outcome with
    | .returned h =>
      (registerAll fuel base ss (register fuel base s st).state).map
        (fun r => (h :: r.1, r.2))
    | _ => none

/-! ## Selection and eviction -/

/-- The operator dialogue `promptui.Select.Run`, given the items: the chosen string
and the error (`none` is `nil`). -/
abbrev Oracle := List GoString → GoString × Option GoError

/-- Sequencing of two calls: the second runs when the first returned. -/
def Run.bind {α β : Type} (r : Run α) (k : α → LigoloRelay → Run β) : Run β :=
  match r.outcome with
  | .returned v => ⟨(k v r.state).state, r.trace ++ (k v r.state).trace, (k v r.state).outcome⟩
  | .lockWait => ⟨r.state, r.trace, .lockWait⟩
  | .sleeping => ⟨r.state, r.trace, .sleeping⟩
  | .panicked => ⟨r.state, r.trace, .panicked⟩
  | .outOfFuel => ⟨r.state, r.trace, .outOfFuel⟩

/-- The method `LigoloRelay.SelectSession`; the value returned is its `error`. With an
empty pool the polling loop is not left while nothing else registers a session. -/
def SelectSession (oracle : Oracle) (st : LigoloRelay) : Run (Option GoError) :=
  if mapLen st.ConnectionPool = 0 then
    ⟨st, [.selectSession], .sleeping⟩
  else
    let items := mapKeys st.ConnectionPool
    if mapLen st.ConnectionPool = 1 then
      if st.Mutex then
        ⟨st, [.selectSession], .lockWait⟩
      else
        let st1 := { st with Mutex := true }
        match items with
        | [] => ⟨st1, [.selectSession, .lock], .panicked⟩
        | item0 :: _ =>
          let st2 := { st1 with CurrentSession := item0 }
          let st3 := { st2 with Session := mapGet st2.ConnectionPool item0 }
          ⟨{ st3 with Mutex := false }, [.selectSession, .lock, .unlock], .returned none⟩
    else
      if st.Mutex then
        ⟨st, [.selectSession], .lockWait⟩
      else
        let st1 := { st with Mutex := true }
        let answer := oracle items
        let st2 := { st1 with CurrentSession := answer.1 }
        match answer.2 with
        | some err =>
          ⟨st2, [.selectSession, .lock, .prompt items st1.Mutex], .returned (some err)⟩
        | none =>
          let st3 := { st2 with Session := mapGet st2.ConnectionPool st2.CurrentSession }
          ⟨{ st3 with Mutex := false },
            [.selectSession, .lock, .prompt items st1.Mutex, .unlock], .returned none⟩

/-- The method `LigoloRelay.RemoveSession`. -/
def RemoveSession (st : LigoloRelay) : Run Unit :=
  if st.Mutex then
    ⟨st, [.removeSession], .lockWait⟩
  else
    let st1 := { st with Mutex := true }
    let st2 := { st1 with
      ConnectionPool := mapDelete st1.ConnectionPool st1.CurrentSession }
    ⟨{ st2 with Mutex := false }, [.removeSession, .lock, .unlock], .returned ()⟩

/-! ## Forwarding a local connection -/

/-- What the yamux library answers: `IsClosed()` of a session and the error of
`Open()` on it (`none` when the stream is opened). -/
structure Yamux where
  IsClosed : YamuxSession → Bool
  Open : YamuxSession → Option GoError

/-- The method `LigoloRelay.handleLocalConnection`. `IsClosed` and `RemoteAddr` read
fields of the session, so a nil `ligolo.Session` is a nil dereference. -/
def handleLocalConnection (y : Yamux) (oracle : Oracle) (st : LigoloRelay) : Run Unit :=
  match st.Session with
  | none => ⟨st, [], .panicked⟩
  | some s =>
    if y.IsClosed s then
      let closed : Run Unit := ⟨st, [.connClose], .returned ()⟩
      if 0 < mapLen st.ConnectionPool then
        ((closed.bind (fun _ st1 => RemoveSession st1)).bind
          (fun _ st2 => SelectSession oracle st2)).bind
          (fun _ st3 =>
            match st3.Session with
            | none => ⟨st3, [], .panicked⟩
            | some _ => ⟨st3, [], .returned ()⟩)
      else
        closed
    else
      match y.Open s with
      | some _ => ⟨st, [.streamOpen false], .returned ()⟩
      | none =>
        ⟨st, [.streamOpen true, .relayStart true, .relayStart false], .returned ()⟩

/-! ## Agent handshake -/

/-- What the collaborators answer during one handshake: `yamux.Server`, `Ping`,
the error of `session.Open()`, and the single `Read` (bytes delivered, error). -/
structure Handshake where
  server : Except GoError YamuxSession
  ping : Option GoError
  initOpen : Option GoError
  readData : List Byte
  readErr : Option GoError

/-- A `Read` into `buf`: the bytes delivered overwrite its beginning. -/
def readInto (buf : List Byte) (data : List Byte) : List Byte :=
  data.take buf.length ++ buf.drop (data.take buf.length).length

/-- The result triple of `handleRelayConnection`: `(nil, "", err)` or
`(session, hostname, nil)`. -/
inductive HandshakeResult where
  | failed (err : GoError)
  | accepted (session : YamuxSession) (hostname : GoString)
deriving DecidableEq

/-- The function `handleRelayConnection`. When the handshake stream fails to open,
`init` is a nil interface and calling it panics. -/
def handleRelayConnection (h : Handshake) : Outcome HandshakeResult :=
  match h.server with
  | .error err => .returned (.failed err)
  | .ok session =>
    match h.ping with
    | some err => .returned (.failed err)
    | none =>
      match h.initOpen with
      | some _ => .panicked
      | none =>
        let hostname := readInto (List.replicate 255 0) h.readData
        .returned (.accepted session hostname)

/-- One round of the accept loop of `startRelayHandler` after `Accept` succeeded:
the handshake, then the registration step; the value is the identifier assigned,
`none` when the handshake failed and the loop continues. -/
def acceptRelay (fuel : Nat) (h : Handshake) (st : LigoloRelay) : Run (Option GoString) :=
  match handleRelayConnection h with
  | .returned (.accepted session hostname) =>
    (register fuel hostname session st).bind (fun id st1 => ⟨st1, [], .returned (some id)⟩)
  | .returned (.failed _) => ⟨st, [], .returned none⟩
  | .lockWait => ⟨st, [], .lockWait⟩
  | .sleeping => ⟨st, [], .sleeping⟩
  | .panicked => ⟨st, [], .panicked⟩
  | .outOfFuel => ⟨st, [], .outOfFuel⟩

/-! ## Relaying -/

/-- A `net.Conn` endpoint. -/
structure Endpoint where
  fd : Nat
deriving DecidableEq, Repr

/-- How `io.Copy` ends. -/
inductive CopyEnd where
  | eof
  | readError (err : GoError)
  | writeError (err : GoError)
deriving DecidableEq

/-- Steps of a relay task. -/
inductive RelayEvent where
  | copyEnded (src dst : Endpoint) (how : CopyEnd)
  | close (ep : Endpoint)
deriving DecidableEq

/-- The call `ep.Close()` on the set of closed endpoints; closing twice changes nothing. -/
def closeEndpoint (ep : Endpoint) (closed : List Endpoint) : List Endpoint :=
  if ep ∈ closed then closed else ep :: closed

/-- The function `relay`, run from the moment `io.Copy(dst, src)` ends in the way
`how`: the endpoints closed afterwards and the steps taken, in order. -/
def relay (how : CopyEnd) (src dst : Endpoint) (closed : List Endpoint) :
    List Endpoint × List RelayEvent :=
  let closed1 := closeEndpoint dst closed
  let closed2 := closeEndpoint src closed1
  (closed2, [.copyEnded src dst how, .close dst, .close src])

/-- The zero identifier: 255 zero bytes. -/
def zeroHostname : GoString := List.replicate 255 0

/-! ## Sample data -/

/-- The identifier `"host-A"`. -/
def hostA : GoString := [104, 111, 115, 116, 45, 65]

/-- The identifier `"host-A-1"`. -/
def hostA1 : GoString := [104, 111, 115, 116, 45, 65, 45, 49]

/-- The identifier `"a"`. -/
def idA : GoString := [97]

/-- The identifier `"b"`. -/
def idB : GoString := [98]

/-- A fresh relay: empty pool, no session selected, lock free. -/
def emptyRelay : LigoloRelay := ⟨[], none, false, []⟩

/-- A relay holding the one session `"host-A"`, not yet selected. -/
def oneHostRelay : LigoloRelay := ⟨[(hostA, ⟨1⟩)], none, false, []⟩

/-- A relay holding sessions `"a"` and `"b"`, with `"a"` selected. -/
def twoBoundRelay : LigoloRelay := ⟨[(idA, ⟨1⟩), (idB, ⟨2⟩)], some ⟨1⟩, false, idA⟩

/-- A relay holding sessions `"a"` and `"b"`, nothing selected yet. -/
def twoUnboundRelay : LigoloRelay := ⟨[(idA, ⟨1⟩), (idB, ⟨2⟩)], none, false, []⟩

/-- A relay whose pool is empty while a session, since closed, is still selected. -/
def staleRelay : LigoloRelay := ⟨[], some ⟨1⟩, false, hostA⟩

/-- A relay holding the one session `"host-A"`, selected. -/
def boundHostRelay : LigoloRelay := ⟨[(hostA, ⟨1⟩)], some ⟨1⟩, false, hostA⟩

/-- Every session reports itself closed. -/
def allClosed : Yamux := ⟨fun _ => true, fun _ => none⟩

/-- Every session is open and refuses to open a stream. -/
def openFails : Yamux := ⟨fun _ => false, fun _ => some ⟨9⟩⟩

/-- The events of the lock, of eviction and of selection: none of them touches the
incoming connection, a stream or a relay task. -/
def Event.isControl : Event → Bool
  | .lock => true
  | .unlock => true
  | .removeSession => true
  | .selectSession => true
  | .prompt _ _ => true
  | .connClose => false
  | .streamOpen _ => false
  | .relayStart _ => false

/-- An operator dialogue that is aborted: empty string and an error. -/
def abortedPrompt : Oracle := fun _ => ([], some ⟨7⟩)

/-- An operator dialogue in which the first item shown is chosen. -/
def choosesFirst : Oracle := fun items =>
  match items with
  | [] => ([], some ⟨7⟩)
  | item :: _ => (item, none)

/-- The identifier read during a handshake that delivered `data`: the bytes read, then
zero bytes up to 255. -/
def paddedHostname (data : List Byte) : GoString :=
  data ++ List.replicate (255 - data.length) 0

/-- A handshake in which everything succeeds but the identifier read, which fails
having delivered nothing. -/
def readFails (session : YamuxSession) : Handshake :=
  ⟨.ok session, none, none, [], some ⟨5⟩⟩

/-- A relay whose pool already holds a session under the zero identifier. -/
def zeroNamedRelay : LigoloRelay := ⟨[(zeroHostname, ⟨1⟩)], none, false, []⟩

/-- The dialogue contract: a choice made without error is one of the items shown. -/
def OracleSound (oracle : Oracle) : Prop :=
  ∀ items, (oracle items).2 = none → (oracle items).1 ∈ items

/-! ## Decimal rendering -/

theorem itoaLoop_acc (fuel n : Nat) (acc : GoString) :
    itoaLoop fuel n acc = itoaLoop fuel n [] ++ acc := by
  induction fuel generalizing n acc with
  | zero => simp [itoaLoop]
  | succ f ih =>
    unfold itoaLoop
    by_cases h : n < 10
    · simp [h]
    · simp only [h, if_false]
      rw [ih (n / 10) (digitByte (n % 10) :: acc), ih (n / 10) [digitByte (n % 10)]]
      simp

theorem decimalValue_append_digit (s : GoString) (d : Nat) (hd : d < 10) :
    decimalValue (s ++ [digitByte d]) = 10 * decimalValue s + d := by
  simp only [decimalValue, List.foldl_append, List.foldl_cons, List.foldl_nil, digitByte]
  have : (48 + d) % 256 = 48 + d := Nat.mod_eq_of_lt (by omega)
  simp [this]

theorem decimalValue_itoaLoop (fuel n : Nat) (h : n < fuel) :
    decimalValue (itoaLoop fuel n []) = n := by
  induction fuel generalizing n with
  | zero => omega
  | succ f ih =>
    unfold itoaLoop
    by_cases hn : n < 10
    · simp only [hn, if_true]
      have := decimalValue_append_digit [] n hn
      simpa [decimalValue] using this
    · simp only [hn, if_false]
      rw [itoaLoop_acc, decimalValue_append_digit _ _ (Nat.mod_lt _ (by decide)),
        ih (n / 10) (by omega)]
      omega

theorem decimalValue_Itoa (n : Nat) : decimalValue (Itoa n) = n :=
  decimalValue_itoaLoop (n + 1) n (Nat.lt_succ_self n)

theorem Itoa_injective : Function.Injective Itoa := by
  intro a b h
  have := congrArg decimalValue h
  simpa [decimalValue_Itoa] using this

theorem candidate_injective (p : GoString) : Function.Injective (candidate p) := by
  intro a b h
  cases a with
  | zero =>
    cases b with
    | zero => rfl
    | succ j =>
      have := congrArg List.length h
      simp [candidate, dash] at this
  | succ k =>
    cases b with
    | zero =>
      have := congrArg List.length h
      simp [candidate, dash] at this
    | succ j =>
      simp only [candidate, List.append_assoc, List.append_cancel_left_eq] at h
      exact Itoa_injective h

/-! ## The Go map -/

theorem mapGet_eq_none_iff (m : SessionMap) (k : GoString) :
    mapGet m k = none ↔ k ∉ mapKeys m := by
  induction m with
  | nil => simp [mapGet, mapKeys]
  | cons e m ih =>
    obtain ⟨k', v⟩ := e
    simp only [mapKeys, List.mem_dedup] at ih
    by_cases h : k' = k
    · simp [mapGet, mapKeys, h]
    · have h' : ¬ k = k' := fun e => h e.symm
      simp [mapGet, mapKeys, h, h', ih]

theorem mapGet_filter_self (m : SessionMap) (k : GoString) :
    mapGet (m.filter (fun e => e.1 ≠ k)) k = none := by
  rw [mapGet_eq_none_iff]
  simp [mapKeys]

theorem mapGet_filter_ne (m : SessionMap) (k k' : GoString) (h : k' ≠ k) :
    mapGet (m.filter (fun e => e.1 ≠ k)) k' = mapGet m k' := by
  induction m with
  | nil => simp [mapGet]
  | cons e m ih =>
    obtain ⟨a, v⟩ := e
    by_cases ha : a = k
    · have hak : ¬ a = k' := fun e => h (e.symm.trans ha)
      rw [List.filter_cons_of_neg (by simpa using ha), ih]
      simp [mapGet, hak]
    · rw [List.filter_cons_of_pos (by simpa using ha)]
      simp only [mapGet]
      rw [ih]

theorem filter_eq_self_of_none (m : SessionMap) (k : GoString) (h : mapGet m k = none) :
    m.filter (fun e => e.1 ≠ k) = m := by
  rw [mapGet_eq_none_iff] at h
  simp only [mapKeys, List.mem_dedup, List.mem_map, not_exists, not_and] at h
  rw [List.filter_eq_self]
  intro e he
  have := h e he
  simpa using this

theorem mapGet_mapSet_self (m : SessionMap) (k : GoString) (v : YamuxSession) :
    mapGet (mapSet m k v) k = some v := by
  simp [mapSet, mapGet]

theorem mapGet_mapSet_ne (m : SessionMap) (k k' : GoString) (v : YamuxSession)
    (h : k' ≠ k) : mapGet (mapSet m k v) k' = mapGet m k' := by
  have h' : ¬ k = k' := fun e => h e.symm
  simp only [mapSet, mapGet, h', if_false]
  exact mapGet_filter_ne m k k' h

theorem mapKeys_mapSet_of_none (m : SessionMap) (k : GoString) (v : YamuxSession)
    (h : mapGet m k = none) : mapKeys (mapSet m k v) = k :: mapKeys m := by
  have hk := (mapGet_eq_none_iff m k).1 h
  simp only [mapKeys, List.mem_dedup] at hk
  simp only [mapSet, filter_eq_self_of_none m k h, mapKeys, List.map_cons]
  exact List.dedup_cons_of_not_mem hk

theorem mapLen_mapSet_of_none (m : SessionMap) (k : GoString) (v : YamuxSession)
    (h : mapGet m k = none) : mapLen (mapSet m k v) = mapLen m + 1 := by
  simp [mapLen, mapKeys_mapSet_of_none m k v h]

theorem mapGet_mapDelete_self (m : SessionMap) (k : GoString) :
    mapGet (mapDelete m k) k = none :=
  mapGet_filter_self m k

theorem mapGet_mapDelete_ne (m : SessionMap) (k k' : GoString) (h : k' ≠ k) :
    mapGet (mapDelete m k) k' = mapGet m k' :=
  mapGet_filter_ne m k k' h

/-- Among the first `len(m) + 1` candidates one is not a key of the map. -/
theorem exists_free_candidate (m : SessionMap) (p : GoString) :
    ∃ k, k ≤ mapLen m ∧ mapGet m (candidate p k) = none := by
  by_contra hcon
  push_neg at hcon
  have hsub : (List.range (mapLen m + 1)).map (candidate p) ⊆ mapKeys m := by
    intro x hx
    obtain ⟨k, hk, rfl⟩ := List.mem_map.1 hx
    have hk' : k ≤ mapLen m := Nat.lt_succ_iff.1 (List.mem_range.1 hk)
    by_contra hx'
    exact hcon k hk' ((mapGet_eq_none_iff m _).2 hx')
  have hnd : ((List.range (mapLen m + 1)).map (candidate p)).Nodup :=
    (List.nodup_range _).map (candidate_injective p)
  have := (List.subperm_of_subset hnd hsub).length_le
  simp [mapLen] at this

/-! ## Registration -/

/-- The loop entered on candidate `k` with counter `k + 1` stops on the first free
candidate, given fuel enough to reach one. -/
theorem registerLoop_first_free (pool : SessionMap) (tmp : GoString) :
    ∀ (fuel k : Nat),
      (∀ j, j < k → mapGet pool (candidate tmp j) ≠ none) →
      (∃ f, k ≤ f ∧ f < k + fuel ∧ mapGet pool (candidate tmp f) = none) →
      ∃ f, registerLoop pool tmp fuel (candidate tmp k) (k + 1) = some (candidate tmp f) ∧
        mapGet pool (candidate tmp f) = none ∧
        ∀ j, j < f → mapGet pool (candidate tmp j) ≠ none := by
  intro fuel
  induction fuel with
  | zero =>
    intro k _ hex
    obtain ⟨f, h1, h2, _⟩ := hex
    omega
  | succ n ih =>
    intro k hbelow hex
    unfold registerLoop
    by_cases hk : mapGet pool (candidate tmp k) = none
    · refine ⟨k, ?_, hk, hbelow⟩
      simp [hk]
    · have hsome : (mapGet pool (candidate tmp k)).isSome = true :=
        Option.isSome_iff_ne_none.2 hk
      simp only [hsome, if_true]
      have hnext : tmp ++ dash ++ Itoa (k + 1) = candidate tmp (k + 1) := rfl
      rw [hnext]
      apply ih (k + 1)
      · intro j hj
        rcases Nat.lt_succ_iff_lt_or_eq.1 hj with h | h
        · exact hbelow j h
        · rw [h]; exact hk
      · obtain ⟨f, h1, h2, h3⟩ := hex
        have hne : f ≠ k := fun e => hk (e ▸ h3)
        exact ⟨f, by omega, by omega, h3⟩

/-- The registration step run with the lock free and fuel beyond the pool size. -/
theorem register_run (st : LigoloRelay) (p : GoString) (s : YamuxSession) (fuel : Nat)
    (hfree : st.Mutex = false) (hfuel : mapLen st.ConnectionPool < fuel) :
    ∃ k, mapGet st.ConnectionPool (candidate p k) = none ∧
      (∀ j, j < k → mapGet st.ConnectionPool (candidate p j) ≠ none) ∧
      register fuel p s st =
        ⟨{ st with ConnectionPool := mapSet st.ConnectionPool (candidate p k) s },
          [.lock, .unlock], .returned (candidate p k)⟩ := by
  obtain ⟨f0, hf0, hnone⟩ := exists_free_candidate st.ConnectionPool p
  obtain ⟨k, hloop, hk, hbelow⟩ :=
    registerLoop_first_free st.ConnectionPool p fuel 0 (fun j hj => absurd hj (Nat.not_lt_zero j))
      ⟨f0, Nat.zero_le _, by omega, hnone⟩
  refine ⟨k, hk, hbelow, ?_⟩
  have hloop' : registerLoop st.ConnectionPool p fuel p 1 = some (candidate p k) := hloop
  cases st with
  | mk pool sess mtx cur =>
    simp only at hfree hloop'
    subst hfree
    simp [register, hloop']

/-- C1: with the lock free and fuel beyond the pool size, the registration step returns
the first identifier of the sequence p, p-1, p-2, ... that is not a key of the pool;
afterwards that identifier is bound to the session, every other key reads as before
(so every old entry keeps its session) and the size has grown by exactly one. -/
theorem register_assigns_first_free_identifier (st : LigoloRelay) (p : GoString)
    (s : YamuxSession) (fuel : Nat)
    (hfree : st.Mutex = false) (hfuel : mapLen st.ConnectionPool < fuel) :
    ∃ k,
      (register fuel p s st).outcome = .returned (candidate p k) ∧
      mapGet st.ConnectionPool (candidate p k) = none ∧
      (∀ j, j < k → mapGet st.ConnectionPool (candidate p j) ≠ none) ∧
      mapGet (register fuel p s st).state.ConnectionPool (candidate p k) = some s ∧
      (∀ id, id ≠ candidate p k →
        mapGet (register fuel p s st).state.ConnectionPool id
          = mapGet st.ConnectionPool id) ∧
      (∀ id v, mapGet st.ConnectionPool id = some v →
        mapGet (register fuel p s st).state.ConnectionPool id = some v) ∧
      mapLen (register fuel p s st).state.ConnectionPool = mapLen st.ConnectionPool + 1 := by
  obtain ⟨k, hk, hbelow, hrun⟩ := register_run st p s fuel hfree hfuel
  refine ⟨k, ?_, hk, hbelow, ?_, ?_, ?_, ?_⟩
  · rw [hrun]
  · rw [hrun]; exact mapGet_mapSet_self _ _ _
  · intro id hid
    rw [hrun]; exact mapGet_mapSet_ne _ _ _ _ hid
  · intro id v hv
    have hid : id ≠ candidate p k := by
      intro e
      rw [e, hk] at hv
      exact Option.noConfusion hv
    rw [hrun]
    exact (mapGet_mapSet_ne _ _ _ _ hid).trans hv
  · rw [hrun]; exact mapLen_mapSet_of_none _ _ _ hk

/-- C1 at a pool that already holds "host-A": a second "host-A" is registered. -/
theorem register_assigns_first_free_identifier_witness :
    oneHostRelay.Mutex = false ∧ mapLen oneHostRelay.ConnectionPool < 2 ∧
    ∃ k,
      (register 2 hostA ⟨2⟩ oneHostRelay).outcome = .returned (candidate hostA k) ∧
      mapGet oneHostRelay.ConnectionPool (candidate hostA k) = none ∧
      (∀ j, j < k → mapGet oneHostRelay.ConnectionPool (candidate hostA j) ≠ none) ∧
      mapGet (register 2 hostA ⟨2⟩ oneHostRelay).state.ConnectionPool (candidate hostA k)
        = some ⟨2⟩ ∧
      (∀ id, id ≠ candidate hostA k →
        mapGet (register 2 hostA ⟨2⟩ oneHostRelay).state.ConnectionPool id
          = mapGet oneHostRelay.ConnectionPool id) ∧
      (∀ id v, mapGet oneHostRelay.ConnectionPool id = some v →
        mapGet (register 2 hostA ⟨2⟩ oneHostRelay).state.ConnectionPool id = some v) ∧
      mapLen (register 2 hostA ⟨2⟩ oneHostRelay).state.ConnectionPool
        = mapLen oneHostRelay.ConnectionPool + 1 :=
  ⟨rfl, by decide,
    register_assigns_first_free_identifier oneHostRelay hostA ⟨2⟩ 2 rfl (by decide)⟩

/-- Successive registrations of one base, started when exactly the candidates below
`j` are taken: they are assigned candidates `j`, `j + 1`, ... in order. -/
theorem registerAll_from (fuel : Nat) (base : GoString) :
    ∀ (ss : List YamuxSession) (j : Nat) (st : LigoloRelay),
      st.Mutex = false →
      (∀ i, i < j → mapGet st.ConnectionPool (candidate base i) ≠ none) →
      (∀ k, j ≤ k → mapGet st.ConnectionPool (candidate base k) = none) →
      mapLen st.ConnectionPool + ss.length ≤ fuel →
      ∃ st2, registerAll fuel base ss st
          = some ((List.range' j ss.length).map (candidate base), st2) ∧
        st2.Mutex = false ∧
        (∀ i s, ss[i]? = some s →
          mapGet st2.ConnectionPool (candidate base (j + i)) = some s) ∧
        (∀ id, (∀ i, i < ss.length → id ≠ candidate base (j + i)) →
          mapGet st2.ConnectionPool id = mapGet st.ConnectionPool id) ∧
        mapLen st2.ConnectionPool = mapLen st.ConnectionPool + ss.length := by
  intro ss
  induction ss with
  | nil =>
    intro j st hfree _ _ _
    exact ⟨st, rfl, hfree, by simp, fun _ _ => rfl, rfl⟩
  | cons s ss ih =>
    intro j st hfree hbelow habove hfuel
    simp only [List.length_cons] at hfuel
    obtain ⟨k, hk, hkbelow, hrun⟩ := register_run st base s fuel hfree (by omega)
    have hkj : k = j := by
      rcases Nat.lt_trichotomy k j with h | h | h
      · exact absurd hk (hbelow k h)
      · exact h
      · exact absurd (habove j (Nat.le_refl j)) (hkbelow j h)
    subst hkj
    have hne : ∀ i, i ≠ k → candidate base i ≠ candidate base k :=
      fun i hi e => hi (candidate_injective base e)
    obtain ⟨st2, hall, hfree2, hget, hframe, hlen⟩ :=
      ih (k + 1) { st with ConnectionPool := mapSet st.ConnectionPool (candidate base k) s }
        hfree
        (by
          intro i hi
          rcases Nat.lt_succ_iff_lt_or_eq.1 hi with h | h
          · rw [mapGet_mapSet_ne _ _ _ _ (hne i (Nat.ne_of_lt h))]
            exact hbelow i h
          · rw [h, mapGet_mapSet_self]
            exact Option.noConfusion)
        (by
          intro i hi
          rw [mapGet_mapSet_ne _ _ _ _ (hne i (by omega))]
          exact habove i (by omega))
        (by
          rw [mapLen_mapSet_of_none _ _ _ hk]
          omega)
    refine ⟨st2, ?_, hfree2, ?_, ?_, ?_⟩
    · simp only [registerAll, hrun, hall, Option.map_some', List.length_cons, List.range'_succ,
        List.map_cons]
    · intro i v hi
      cases i with
      | zero =>
        simp only [List.getElem?_cons_zero, Option.some.injEq] at hi
        subst hi
        rw [Nat.add_zero, hframe _ (fun i _ => (hne (k + 1 + i) (by omega)).symm)]
        exact mapGet_mapSet_self _ _ _
      | succ i =>
        simp only [List.getElem?_cons_succ] at hi
        have := hget i v hi
        rwa [show k + 1 + i = k + (i + 1) by omega] at this
    · intro id hid
      rw [hframe id (fun i hi => by
        have := hid (i + 1) (by simp only [List.length_cons]; omega)
        rwa [show k + (i + 1) = k + 1 + i by omega] at this)]
      exact mapGet_mapSet_ne _ _ _ _ (by simpa using hid 0 (by simp))
    · rw [hlen, mapLen_mapSet_of_none _ _ _ hk, List.length_cons]
      omega

/-- C2: starting with the lock free from a pool holding none of base, base-1, base-2,
..., n successive registrations of the same base (one per session of the list, fuel
covering the final size) are assigned base, base-1, ..., base-(n-1) in that order;
these are pairwise distinct, each is bound to its session at the end, every other key
reads as before and the size has grown by n. -/
theorem registerAll_assigns_consecutive_suffixes (st : LigoloRelay) (base : GoString)
    (ss : List YamuxSession) (fuel : Nat)
    (hfree : st.Mutex = false)
    (hbase : ∀ k, mapGet st.ConnectionPool (candidate base k) = none)
    (hfuel : mapLen st.ConnectionPool + ss.length ≤ fuel) :
    ∃ st2, registerAll fuel base ss st
        = some ((List.range ss.length).map (candidate base), st2) ∧
      ((List.range ss.length).map (candidate base)).Nodup ∧
      (∀ i s, ss[i]? = some s → mapGet st2.ConnectionPool (candidate base i) = some s) ∧
      (∀ id, (∀ i, i < ss.length → id ≠ candidate base i) →
        mapGet st2.ConnectionPool id = mapGet st.ConnectionPool id) ∧
      mapLen st2.ConnectionPool = mapLen st.ConnectionPool + ss.length := by
  obtain ⟨st2, hall, _, hget, hframe, hlen⟩ :=
    registerAll_from fuel base ss 0 st hfree (fun i hi => absurd hi (Nat.not_lt_zero i))
      (fun k _ => hbase k) hfuel
  refine ⟨st2, ?_, (List.nodup_range _).map (candidate_injective base), ?_, ?_, hlen⟩
  · rw [hall, List.range_eq_range']
  · intro i s hi
    simpa using hget i s hi
  · intro id hid
    exact hframe id (fun i hi => by simpa using hid i hi)

/-- C2 for "host-A" registered twice on a fresh relay: the identifiers are "host-A" then
"host-A-1", both present at the end, size 2. -/
theorem registerAll_assigns_consecutive_suffixes_witness :
    emptyRelay.Mutex = false ∧
    (∀ k, mapGet emptyRelay.ConnectionPool (candidate hostA k) = none) ∧
    mapLen emptyRelay.ConnectionPool + [(⟨1⟩ : YamuxSession), ⟨2⟩].length ≤ 2 ∧
    candidate hostA 0 = hostA ∧ candidate hostA 1 = hostA1 ∧
    ∃ st2, registerAll 2 hostA [⟨1⟩, ⟨2⟩] emptyRelay
        = some ((List.range [(⟨1⟩ : YamuxSession), ⟨2⟩].length).map (candidate hostA), st2) ∧
      ((List.range [(⟨1⟩ : YamuxSession), ⟨2⟩].length).map (candidate hostA)).Nodup ∧
      (∀ i s, [(⟨1⟩ : YamuxSession), ⟨2⟩][i]? = some s →
        mapGet st2.ConnectionPool (candidate hostA i) = some s) ∧
      (∀ id, (∀ i, i < [(⟨1⟩ : YamuxSession), ⟨2⟩].length → id ≠ candidate hostA i) →
        mapGet st2.ConnectionPool id = mapGet emptyRelay.ConnectionPool id) ∧
      mapLen st2.ConnectionPool
        = mapLen emptyRelay.ConnectionPool + [(⟨1⟩ : YamuxSession), ⟨2⟩].length :=
  ⟨rfl, fun _ => rfl, by decide, by decide, by decide,
    registerAll_assigns_consecutive_suffixes emptyRelay hostA [⟨1⟩, ⟨2⟩] 2 rfl
      (fun _ => rfl) (by decide)⟩

/-! ## Selection and eviction -/

theorem mapKeys_of_len_one (m : SessionMap) (id : GoString) (s : YamuxSession)
    (hlen : mapLen m = 1) (hget : mapGet m id = some s) : mapKeys m = [id] := by
  have hmem : id ∈ mapKeys m := by
    by_contra h
    rw [(mapGet_eq_none_iff m id).2 h] at hget
    exact Option.noConfusion hget
  unfold mapLen at hlen
  obtain ⟨x, hx⟩ := List.length_eq_one.1 hlen
  rw [hx] at hmem ⊢
  simp only [List.mem_singleton] at hmem
  rw [hmem]

/-- The single-entry path of `SelectSession`. -/
theorem SelectSession_single (oracle : Oracle) (st : LigoloRelay) (id : GoString)
    (s : YamuxSession) (hfree : st.Mutex = false)
    (hlen : mapLen st.ConnectionPool = 1) (hget : mapGet st.ConnectionPool id = some s) :
    SelectSession oracle st =
      ⟨{ st with CurrentSession := id, Session := some s },
        [.selectSession, .lock, .unlock], .returned none⟩ := by
  have hkeys := mapKeys_of_len_one st.ConnectionPool id s hlen hget
  cases st with
  | mk pool sess mtx cur =>
    simp only at hfree hlen hget hkeys
    subst hfree
    simp [SelectSession, hlen, hkeys, hget]

/-- The path of `SelectSession` through the operator dialogue when it fails. -/
theorem SelectSession_prompt_failed (oracle : Oracle) (st : LigoloRelay) (err : GoError)
    (hfree : st.Mutex = false) (hlen : 1 < mapLen st.ConnectionPool)
    (hfail : (oracle (mapKeys st.ConnectionPool)).2 = some err) :
    SelectSession oracle st =
      ⟨{ st with Mutex := true, CurrentSession := (oracle (mapKeys st.ConnectionPool)).1 },
        [.selectSession, .lock, .prompt (mapKeys st.ConnectionPool) true],
        .returned (some err)⟩ := by
  cases st with
  | mk pool sess mtx cur =>
    simp only at hfree hlen hfail
    subst hfree
    have h0 : mapLen pool ≠ 0 := by omega
    have h1 : mapLen pool ≠ 1 := by omega
    simp [SelectSession, h0, h1, hfail]

/-- The path of `SelectSession` through the operator dialogue when it succeeds. -/
theorem SelectSession_prompt_ok (oracle : Oracle) (st : LigoloRelay)
    (hfree : st.Mutex = false) (hlen : 1 < mapLen st.ConnectionPool)
    (hok : (oracle (mapKeys st.ConnectionPool)).2 = none) :
    SelectSession oracle st =
      ⟨{ st with
          CurrentSession := (oracle (mapKeys st.ConnectionPool)).1,
          Session := mapGet st.ConnectionPool (oracle (mapKeys st.ConnectionPool)).1 },
        [.selectSession, .lock, .prompt (mapKeys st.ConnectionPool) true, .unlock],
        .returned none⟩ := by
  cases st with
  | mk pool sess mtx cur =>
    simp only at hfree hlen hok
    subst hfree
    have h0 : mapLen pool ≠ 0 := by omega
    have h1 : mapLen pool ≠ 1 := by omega
    simp [SelectSession, h0, h1, hok]

/-- The method `RemoveSession` run with the lock free. -/
theorem RemoveSession_run (st : LigoloRelay) (hfree : st.Mutex = false) :
    RemoveSession st =
      ⟨{ st with ConnectionPool := mapDelete st.ConnectionPool st.CurrentSession },
        [.removeSession, .lock, .unlock], .returned ()⟩ := by
  cases st with
  | mk pool sess mtx cur =>
    simp only at hfree
    subst hfree
    simp [RemoveSession]

/-- C3: with exactly one entry (id, s) in the pool and the lock free, whatever was
selected before and whatever the operator dialogue would answer, SelectSession returns
no error, binds the selection to (id, s), leaves the pool unchanged and the lock
free, and its trace holds no dialogue with the operator. -/
theorem SelectSession_single_entry_binds_without_oracle (oracle : Oracle)
    (st : LigoloRelay) (id : GoString) (s : YamuxSession)
    (hfree : st.Mutex = false)
    (hlen : mapLen st.ConnectionPool = 1) (hget : mapGet st.ConnectionPool id = some s) :
    (SelectSession oracle st).outcome = .returned none ∧
    (SelectSession oracle st).state.CurrentSession = id ∧
    (SelectSession oracle st).state.Session = some s ∧
    (SelectSession oracle st).state.ConnectionPool = st.ConnectionPool ∧
    (SelectSession oracle st).state.Mutex = false ∧
    (∀ items held, Event.prompt items held ∉ (SelectSession oracle st).trace) := by
  rw [SelectSession_single oracle st id s hfree hlen hget]
  refine ⟨rfl, rfl, rfl, rfl, hfree, ?_⟩
  intro items held
  simp

/-- C3 at a relay holding only "host-A", with a dialogue that would be aborted. -/
theorem SelectSession_single_entry_binds_without_oracle_witness :
    oneHostRelay.Mutex = false ∧ mapLen oneHostRelay.ConnectionPool = 1 ∧
    mapGet oneHostRelay.ConnectionPool hostA = some ⟨1⟩ ∧
    (SelectSession abortedPrompt oneHostRelay).outcome = .returned none ∧
    (SelectSession abortedPrompt oneHostRelay).state.CurrentSession = hostA ∧
    (SelectSession abortedPrompt oneHostRelay).state.Session = some ⟨1⟩ ∧
    (SelectSession abortedPrompt oneHostRelay).state.ConnectionPool
      = oneHostRelay.ConnectionPool ∧
    (SelectSession abortedPrompt oneHostRelay).state.Mutex = false ∧
    (∀ items held,
      Event.prompt items held ∉ (SelectSession abortedPrompt oneHostRelay).trace) :=
  ⟨rfl, by decide, by decide,
    SelectSession_single_entry_binds_without_oracle abortedPrompt oneHostRelay hostA ⟨1⟩
      rfl (by decide) (by decide)⟩

/-- C4 fails when a session was bound before: on the relay holding "a" and "b" with
"a" selected, an aborted dialogue makes SelectSession return the failure, yet the
bound session is still the one of "a", so the selection is not unset. -/
theorem SelectSession_failure_keeps_bound_session :
    1 < mapLen twoBoundRelay.ConnectionPool ∧
    twoBoundRelay.Session = some ⟨1⟩ ∧
    (abortedPrompt (mapKeys twoBoundRelay.ConnectionPool)).2 = some ⟨7⟩ ∧
    (SelectSession abortedPrompt twoBoundRelay).outcome = .returned (some ⟨7⟩) ∧
    ¬ ((SelectSession abortedPrompt twoBoundRelay).state.Session = none ∧
        (SelectSession abortedPrompt twoBoundRelay).state.CurrentSession = []) := by
  decide

/-- C4 as amended: with more than one entry and the lock free, a failing dialogue makes
SelectSession return that failure, leaves the pool and the bound session as they
were and sets the bound identifier to the string the dialogue returned with the
failure; so the selection is unset afterwards when no session was bound before and
the dialogue returned the empty string. -/
theorem SelectSession_failure_leaves_session_as_before (oracle : Oracle)
    (st : LigoloRelay) (err : GoError)
    (hfree : st.Mutex = false) (hlen : 1 < mapLen st.ConnectionPool)
    (hfail : (oracle (mapKeys st.ConnectionPool)).2 = some err) :
    (SelectSession oracle st).outcome = .returned (some err) ∧
    (SelectSession oracle st).state.ConnectionPool = st.ConnectionPool ∧
    (SelectSession oracle st).state.Session = st.Session ∧
    (SelectSession oracle st).state.CurrentSession
      = (oracle (mapKeys st.ConnectionPool)).1 ∧
    (st.Session = none → (oracle (mapKeys st.ConnectionPool)).1 = [] →
      (SelectSession oracle st).state.Session = none ∧
      (SelectSession oracle st).state.CurrentSession = []) := by
  rw [SelectSession_prompt_failed oracle st err hfree hlen hfail]
  exact ⟨rfl, rfl, rfl, rfl, fun h1 h2 => ⟨h1, h2⟩⟩

/-- C4 as amended, at a relay holding "a" and "b" with nothing selected. -/
theorem SelectSession_failure_leaves_session_as_before_witness :
    twoUnboundRelay.Mutex = false ∧ 1 < mapLen twoUnboundRelay.ConnectionPool ∧
    (abortedPrompt (mapKeys twoUnboundRelay.ConnectionPool)).2 = some ⟨7⟩ ∧
    (SelectSession abortedPrompt twoUnboundRelay).outcome = .returned (some ⟨7⟩) ∧
    (SelectSession abortedPrompt twoUnboundRelay).state.ConnectionPool
      = twoUnboundRelay.ConnectionPool ∧
    (SelectSession abortedPrompt twoUnboundRelay).state.Session = twoUnboundRelay.Session ∧
    (SelectSession abortedPrompt twoUnboundRelay).state.CurrentSession
      = (abortedPrompt (mapKeys twoUnboundRelay.ConnectionPool)).1 ∧
    (twoUnboundRelay.Session = none →
      (abortedPrompt (mapKeys twoUnboundRelay.ConnectionPool)).1 = [] →
      (SelectSession abortedPrompt twoUnboundRelay).state.Session = none ∧
      (SelectSession abortedPrompt twoUnboundRelay).state.CurrentSession = []) :=
  ⟨rfl, by decide, rfl,
    SelectSession_failure_leaves_session_as_before abortedPrompt twoUnboundRelay ⟨7⟩
      rfl (by decide) rfl⟩

/-- C5 fails: on the relay holding "a" and "b" with "a" selected, RemoveSession drops
"a" from the pool but the selection still reads ("a", its session) afterwards. -/
theorem RemoveSession_keeps_current_selection :
    twoBoundRelay.Session = some ⟨1⟩ ∧ twoBoundRelay.CurrentSession = idA ∧
    (RemoveSession twoBoundRelay).outcome = .returned () ∧
    mapGet (RemoveSession twoBoundRelay).state.ConnectionPool idA = none ∧
    ¬ ((RemoveSession twoBoundRelay).state.Session = none) ∧
    (RemoveSession twoBoundRelay).state.CurrentSession = idA := by
  decide

/-- C5 as amended: with the selection bound to (id, s) and the lock free,
RemoveSession returns, removes id from the pool, leaves every other key as it was,
and leaves the selection fields untouched: they still read (id, s). -/
theorem RemoveSession_removes_current_id_only (st : LigoloRelay) (id : GoString)
    (s : YamuxSession) (hfree : st.Mutex = false)
    (hsess : st.Session = some s) (hcur : st.CurrentSession = id) :
    (RemoveSession st).outcome = .returned () ∧
    mapGet (RemoveSession st).state.ConnectionPool id = none ∧
    (∀ other, other ≠ id →
      mapGet (RemoveSession st).state.ConnectionPool other
        = mapGet st.ConnectionPool other) ∧
    (RemoveSession st).state.Session = some s ∧
    (RemoveSession st).state.CurrentSession = id ∧
    (RemoveSession st).state.Mutex = false := by
  rw [RemoveSession_run st hfree]
  subst hcur
  refine ⟨rfl, mapGet_mapDelete_self _ _, ?_, hsess, rfl, hfree⟩
  intro other hne
  exact mapGet_mapDelete_ne _ _ _ hne

/-- C5 as amended, at the relay holding "a" and "b" with "a" selected. -/
theorem RemoveSession_removes_current_id_only_witness :
    twoBoundRelay.Mutex = false ∧ twoBoundRelay.Session = some ⟨1⟩ ∧
    twoBoundRelay.CurrentSession = idA ∧
    (RemoveSession twoBoundRelay).outcome = .returned () ∧
    mapGet (RemoveSession twoBoundRelay).state.ConnectionPool idA = none ∧
    (∀ other, other ≠ idA →
      mapGet (RemoveSession twoBoundRelay).state.ConnectionPool other
        = mapGet twoBoundRelay.ConnectionPool other) ∧
    (RemoveSession twoBoundRelay).state.Session = some ⟨1⟩ ∧
    (RemoveSession twoBoundRelay).state.CurrentSession = idA ∧
    (RemoveSession twoBoundRelay).state.Mutex = false :=
  ⟨rfl, rfl, rfl, RemoveSession_removes_current_id_only twoBoundRelay idA ⟨1⟩ rfl rfl rfl⟩

/-! ## Forwarding a local connection -/

theorem RemoveSession_trace_control (st : LigoloRelay) :
    ∀ e ∈ (RemoveSession st).trace, e.isControl = true := by
  unfold RemoveSession
  split <;> simp [Event.isControl]

theorem SelectSession_trace_control (oracle : Oracle) (st : LigoloRelay) :
    ∀ e ∈ (SelectSession oracle st).trace, e.isControl = true := by
  unfold SelectSession
  dsimp only
  split_ifs
  all_goals try simp [Event.isControl]
  all_goals (split <;> simp [Event.isControl])

theorem Run.bind_trace_mem {α β : Type} (r : Run α) (k : α → LigoloRelay → Run β)
    (e : Event) (he : e ∈ (r.bind k).trace) :
    e ∈ r.trace ∨ ∃ v, r.outcome = .returned v ∧ e ∈ (k v r.state).trace := by
  unfold Run.bind at he
  cases hr : r.outcome with
  | returned v =>
    simp only [hr, List.mem_append] at he
    rcases he with h | h
    · exact Or.inl h
    · exact Or.inr ⟨v, rfl, h⟩
  | lockWait => simp only [hr] at he; exact Or.inl he
  | sleeping => simp only [hr] at he; exact Or.inl he
  | panicked => simp only [hr] at he; exact Or.inl he
  | outOfFuel => simp only [hr] at he; exact Or.inl he

theorem Run.bind_panicked {α β : Type} (r : Run α) (k : α → LigoloRelay → Run β)
    (hp : (r.bind k).outcome = .panicked) :
    r.outcome = .panicked ∨ ∃ v, r.outcome = .returned v ∧ (k v r.state).outcome = .panicked := by
  unfold Run.bind at hp
  cases hr : r.outcome with
  | returned v =>
    simp only [hr] at hp
    exact Or.inr ⟨v, rfl, hp⟩
  | lockWait => simp only [hr] at hp; exact Outcome.noConfusion hp
  | sleeping => simp only [hr] at hp; exact Outcome.noConfusion hp
  | panicked => exact Or.inl rfl
  | outOfFuel => simp only [hr] at hp; exact Outcome.noConfusion hp

theorem Run.bind_state_of_returned {α β : Type} (r : Run α) (k : α → LigoloRelay → Run β)
    (v : β) (hv : (r.bind k).outcome = .returned v) :
    ∃ w, r.outcome = .returned w ∧ (r.bind k).state = (k w r.state).state := by
  unfold Run.bind at hv ⊢
  cases hr : r.outcome with
  | returned w => exact ⟨w, rfl, rfl⟩
  | lockWait => simp only [hr] at hv; exact Outcome.noConfusion hv
  | sleeping => simp only [hr] at hv; exact Outcome.noConfusion hv
  | panicked => simp only [hr] at hv; exact Outcome.noConfusion hv
  | outOfFuel => simp only [hr] at hv; exact Outcome.noConfusion hv

theorem Run.bind_trace_head {α β : Type} (r : Run α) (k : α → LigoloRelay → Run β)
    (e : Event) (he : r.trace.head? = some e) : (r.bind k).trace.head? = some e := by
  unfold Run.bind
  cases hr : r.outcome with
  | returned v =>
    cases ht : r.trace with
    | nil => rw [ht] at he; exact Option.noConfusion he
    | cons a l => rw [ht] at he; simpa using he
  | lockWait => exact he
  | sleeping => exact he
  | panicked => exact he
  | outOfFuel => exact he

theorem RemoveSession_session (st : LigoloRelay) :
    (RemoveSession st).state.Session = st.Session ∧
    (RemoveSession st).outcome ≠ .panicked := by
  unfold RemoveSession
  split <;> simp

/-- With a sound dialogue, `SelectSession` does not panic, and a session bound
before is followed by a session bound after it returns. -/
theorem SelectSession_session_bound (oracle : Oracle) (st : LigoloRelay)
    (hsound : OracleSound oracle) (hsess : st.Session ≠ none) :
    (SelectSession oracle st).outcome ≠ .panicked ∧
    (SelectSession oracle st).state.Session ≠ none := by
  by_cases h0 : mapLen st.ConnectionPool = 0
  · simp [SelectSession, h0, hsess]
  · by_cases hm : st.Mutex = true
    · by_cases h1 : mapLen st.ConnectionPool = 1 <;> simp [SelectSession, h0, h1, hm, hsess]
    · have hfree : st.Mutex = false := by simpa using hm
      by_cases h1 : mapLen st.ConnectionPool = 1
      · obtain ⟨x, hx⟩ := List.length_eq_one.1 h1
        have hmem : x ∈ mapKeys st.ConnectionPool := by rw [hx]; simp
        have hget : mapGet st.ConnectionPool x ≠ none :=
          fun e => (mapGet_eq_none_iff _ _).1 e hmem
        obtain ⟨v, hv⟩ := Option.ne_none_iff_exists'.1 hget
        rw [SelectSession_single oracle st x v hfree h1 hv]
        simp
      · have hlen : 1 < mapLen st.ConnectionPool := by omega
        cases hans : (oracle (mapKeys st.ConnectionPool)).2 with
        | some err =>
          rw [SelectSession_prompt_failed oracle st err hfree hlen hans]
          simpa using hsess
        | none =>
          rw [SelectSession_prompt_ok oracle st hfree hlen hans]
          have hmem := hsound _ hans
          have hget : mapGet st.ConnectionPool (oracle (mapKeys st.ConnectionPool)).1 ≠ none :=
            fun e => (mapGet_eq_none_iff _ _).1 e hmem
          simpa using hget

/-- C6 fails when nothing is selected: on a fresh relay the handler dereferences the nil
session and panics, and the incoming connection is not closed. -/
theorem handleLocalConnection_unset_panics :
    emptyRelay.Session = none ∧
    (handleLocalConnection allClosed abortedPrompt emptyRelay).outcome = .panicked ∧
    Event.connClose ∉ (handleLocalConnection allClosed abortedPrompt emptyRelay).trace := by
  decide

/-- C6 as amended: when the bound session reports itself closed (and the dialogue,
when it succeeds, answers one of the items shown), the handler first closes the
incoming connection, opens no stream, starts no relay and does not panic; with an
empty pool it returns having done nothing else: state unchanged, no eviction and no
reselection. -/
theorem handleLocalConnection_closed_session_closes_conn (y : Yamux) (oracle : Oracle)
    (st : LigoloRelay) (s : YamuxSession)
    (hsess : st.Session = some s) (hclosed : y.IsClosed s = true)
    (hsound : OracleSound oracle) :
    (handleLocalConnection y oracle st).trace.head? = some .connClose ∧
    (∀ ok, Event.streamOpen ok ∉ (handleLocalConnection y oracle st).trace) ∧
    (∀ b, Event.relayStart b ∉ (handleLocalConnection y oracle st).trace) ∧
    (handleLocalConnection y oracle st).outcome ≠ .panicked ∧
    (mapLen st.ConnectionPool = 0 →
      (handleLocalConnection y oracle st).outcome = .returned () ∧
      (handleLocalConnection y oracle st).state = st ∧
      (handleLocalConnection y oracle st).trace = [.connClose]) := by
  by_cases h0 : mapLen st.ConnectionPool = 0
  · have hrun : handleLocalConnection y oracle st = ⟨st, [.connClose], .returned ()⟩ := by
      simp [handleLocalConnection, hsess, hclosed, h0]
    rw [hrun]
    simp
  · have hpos : 0 < mapLen st.ConnectionPool := Nat.pos_of_ne_zero h0
    have hrun : handleLocalConnection y oracle st =
        (((⟨st, [.connClose], .returned ()⟩ : Run Unit).bind
            (fun _ st1 => RemoveSession st1)).bind
          (fun _ st2 => SelectSession oracle st2)).bind
          (fun _ st3 =>
            match st3.Session with
            | none => ⟨st3, [], .panicked⟩
            | some _ => ⟨st3, [], .returned ()⟩) := by
      simp [handleLocalConnection, hsess, hclosed, hpos]
    rw [hrun]
    have hctl : ∀ e ∈ ((((⟨st, [.connClose], .returned ()⟩ : Run Unit).bind
            (fun _ st1 => RemoveSession st1)).bind
          (fun _ st2 => SelectSession oracle st2)).bind
          (fun _ st3 =>
            match st3.Session with
            | none => (⟨st3, [], .panicked⟩ : Run Unit)
            | some _ => ⟨st3, [], .returned ()⟩)).trace,
        e = .connClose ∨ e.isControl = true := by
      intro e he
      rcases Run.bind_trace_mem _ _ e he with h | ⟨_, _, h⟩
      · rcases Run.bind_trace_mem _ _ e h with h | ⟨_, _, h⟩
        · rcases Run.bind_trace_mem _ _ e h with h | ⟨_, _, h⟩
          · exact Or.inl (by simpa using h)
          · exact Or.inr (RemoveSession_trace_control _ e h)
        · exact Or.inr (SelectSession_trace_control _ _ e h)
      · split at h <;> simp at h
    refine ⟨?_, ?_, ?_, ?_, fun h => absurd h h0⟩
    · exact Run.bind_trace_head _ _ _ (Run.bind_trace_head _ _ _
        (Run.bind_trace_head _ _ _ rfl))
    · intro ok hmem
      rcases hctl _ hmem with h | h
      · exact Event.noConfusion h
      · simp [Event.isControl] at h
    · intro b hmem
      rcases hctl _ hmem with h | h
      · exact Event.noConfusion h
      · simp [Event.isControl] at h
    · intro hp
      rcases Run.bind_panicked _ _ hp with h | ⟨_, hret, h⟩
      · rcases Run.bind_panicked _ _ h with h | ⟨_, hret1, h⟩
        · rcases Run.bind_panicked _ _ h with h | ⟨_, _, h⟩
          · exact Outcome.noConfusion h
          · exact (RemoveSession_session st).2 h
        · obtain ⟨_, _, hst⟩ := Run.bind_state_of_returned _ _ _ hret1
          have hsome : (RemoveSession st).state.Session ≠ none := by
            rw [(RemoveSession_session st).1, hsess]; simp
          rw [hst] at h
          exact (SelectSession_session_bound oracle _ hsound hsome).1 h
      · obtain ⟨_, hret1, hst⟩ := Run.bind_state_of_returned _ _ _ hret
        obtain ⟨_, _, hst1⟩ := Run.bind_state_of_returned _ _ _ hret1
        have hsome : (RemoveSession st).state.Session ≠ none := by
          rw [(RemoveSession_session st).1, hsess]; simp
        have hbound := (SelectSession_session_bound oracle _ hsound hsome).2
        rw [hst, hst1] at h
        split at h
        · rename_i hnone
          exact hbound hnone
        · exact Outcome.noConfusion h

theorem choosesFirst_sound : OracleSound choosesFirst := by
  intro items h
  cases items with
  | nil => exact Option.noConfusion h
  | cons a l => simp [choosesFirst]

/-- C6 as amended, at a relay with an empty pool whose selected session is closed. -/
theorem handleLocalConnection_closed_session_closes_conn_witness :
    staleRelay.Session = some ⟨1⟩ ∧ allClosed.IsClosed ⟨1⟩ = true ∧
    OracleSound choosesFirst ∧
    (handleLocalConnection allClosed choosesFirst staleRelay).trace.head?
      = some .connClose ∧
    (∀ ok, Event.streamOpen ok
      ∉ (handleLocalConnection allClosed choosesFirst staleRelay).trace) ∧
    (∀ b, Event.relayStart b
      ∉ (handleLocalConnection allClosed choosesFirst staleRelay).trace) ∧
    (handleLocalConnection allClosed choosesFirst staleRelay).outcome ≠ .panicked ∧
    (mapLen staleRelay.ConnectionPool = 0 →
      (handleLocalConnection allClosed choosesFirst staleRelay).outcome = .returned () ∧
      (handleLocalConnection allClosed choosesFirst staleRelay).state = staleRelay ∧
      (handleLocalConnection allClosed choosesFirst staleRelay).trace = [.connClose]) :=
  ⟨rfl, rfl, choosesFirst_sound,
    handleLocalConnection_closed_session_closes_conn allClosed choosesFirst staleRelay ⟨1⟩
      rfl rfl choosesFirst_sound⟩

/-- C7 on the code: with "host-A" selected and open, and the stream refused, the handler
returns with the state unchanged and no relay started, but its only effect is the
failed stream opening: the incoming connection is never closed. -/
theorem handleLocalConnection_open_failure_leaves_conn_open :
    boundHostRelay.Session = some ⟨1⟩ ∧ openFails.IsClosed ⟨1⟩ = false ∧
    openFails.Open ⟨1⟩ = some ⟨9⟩ ∧
    (handleLocalConnection openFails choosesFirst boundHostRelay).outcome = .returned () ∧
    (handleLocalConnection openFails choosesFirst boundHostRelay).state = boundHostRelay ∧
    (handleLocalConnection openFails choosesFirst boundHostRelay).trace
      = [.streamOpen false] ∧
    Event.connClose ∉ (handleLocalConnection openFails choosesFirst boundHostRelay).trace := by
  decide

/-! ## Agent handshake -/

theorem readInto_replicate (n : Nat) (data : List Byte) (h : data.length ≤ n) :
    readInto (List.replicate n 0) data = data ++ List.replicate (n - data.length) 0 := by
  simp [readInto, List.take_of_length_le, h]

theorem paddedHostname_length (data : List Byte) (h : data.length ≤ 255) :
    (paddedHostname data).length = 255 := by
  simp only [paddedHostname, List.length_append, List.length_replicate]
  omega

theorem handleRelayConnection_ok (h : Handshake) (session : YamuxSession)
    (hserver : h.server = .ok session) (hping : h.ping = none) (hopen : h.initOpen = none)
    (hn : h.readData.length ≤ 255) :
    handleRelayConnection h = .returned (.accepted session (paddedHostname h.readData)) := by
  unfold handleRelayConnection
  rw [hserver, hping, hopen]
  dsimp only
  rw [readInto_replicate 255 _ hn]
  rfl

set_option maxRecDepth 20000

/-- C8 fails when the zero identifier is taken: with a session already registered
under 255 zero bytes, a handshake whose read fails with nothing delivered returns
the zero identifier, but the new session is registered under that identifier followed
by "-1"; the zero identifier still names the earlier session. -/
theorem acceptRelay_zero_identifier_taken :
    handleRelayConnection (readFails ⟨2⟩) = .returned (.accepted ⟨2⟩ zeroHostname) ∧
    (acceptRelay 2 (readFails ⟨2⟩) zeroNamedRelay).outcome
      = .returned (some (zeroHostname ++ dash ++ Itoa 1)) ∧
    mapGet (acceptRelay 2 (readFails ⟨2⟩) zeroNamedRelay).state.ConnectionPool zeroHostname
      = some ⟨1⟩ ∧
    ¬ (mapGet (acceptRelay 2 (readFails ⟨2⟩) zeroNamedRelay).state.ConnectionPool zeroHostname
      = some ⟨2⟩) := by
  decide

/-- The accept round after a handshake that succeeded, run with the lock free. -/
theorem acceptRelay_run (h : Handshake) (st : LigoloRelay) (session : YamuxSession)
    (fuel : Nat)
    (hserver : h.server = .ok session) (hping : h.ping = none) (hopen : h.initOpen = none)
    (hn : h.readData.length ≤ 255)
    (hfree : st.Mutex = false) (hfuel : mapLen st.ConnectionPool < fuel) :
    ∃ k, mapGet st.ConnectionPool (candidate (paddedHostname h.readData) k) = none ∧
      (∀ j, j < k →
        mapGet st.ConnectionPool (candidate (paddedHostname h.readData) j) ≠ none) ∧
      (acceptRelay fuel h st).outcome
        = .returned (some (candidate (paddedHostname h.readData) k)) ∧
      (acceptRelay fuel h st).state =
        { st with ConnectionPool :=
            mapSet st.ConnectionPool (candidate (paddedHostname h.readData) k) session } := by
  obtain ⟨k, hk, hbelow, hrun⟩ :=
    register_run st (paddedHostname h.readData) session fuel hfree hfuel
  refine ⟨k, hk, hbelow, ?_, ?_⟩
  · simp only [acceptRelay, handleRelayConnection_ok h session hserver hping hopen hn, hrun,
      Run.bind]
  · simp only [acceptRelay, handleRelayConnection_ok h session hserver hping hopen hn, hrun,
      Run.bind]

/-- C8 as amended: when session setup, liveness probe and the opening of the handshake
stream succeed and the read delivers n bytes, n at most 255 (with or without a read
error), the handshake returns the session with no error and an identifier of exactly
255 bytes, the n bytes read followed by zero bytes (all zero when nothing was read);
the accept round, run with the lock free and fuel beyond the pool size, then registers
the session under the first identifier of the sequence derived from that identifier
that is not yet a key (the identifier itself when it is free), and the identifier
returned by the handshake is a key of the pool afterwards. -/
theorem handshake_identifier_padded_and_registered (h : Handshake) (st : LigoloRelay)
    (session : YamuxSession) (fuel : Nat)
    (hserver : h.server = .ok session) (hping : h.ping = none) (hopen : h.initOpen = none)
    (hn : h.readData.length ≤ 255)
    (hfree : st.Mutex = false) (hfuel : mapLen st.ConnectionPool < fuel) :
    handleRelayConnection h = .returned (.accepted session (paddedHostname h.readData)) ∧
    (paddedHostname h.readData).length = 255 ∧
    (paddedHostname h.readData).take h.readData.length = h.readData ∧
    (∀ b ∈ (paddedHostname h.readData).drop h.readData.length, b = 0) ∧
    paddedHostname [] = zeroHostname ∧
    (∃ k,
      (acceptRelay fuel h st).outcome
        = .returned (some (candidate (paddedHostname h.readData) k)) ∧
      mapGet st.ConnectionPool (candidate (paddedHostname h.readData) k) = none ∧
      (∀ j, j < k →
        mapGet st.ConnectionPool (candidate (paddedHostname h.readData) j) ≠ none) ∧
      mapGet (acceptRelay fuel h st).state.ConnectionPool
        (candidate (paddedHostname h.readData) k) = some session) ∧
    (mapGet st.ConnectionPool (paddedHostname h.readData) = none →
      mapGet (acceptRelay fuel h st).state.ConnectionPool (paddedHostname h.readData)
        = some session) ∧
    mapGet (acceptRelay fuel h st).state.ConnectionPool (paddedHostname h.readData) ≠ none := by
  obtain ⟨k, hk, hbelow, hout, hstate⟩ :=
    acceptRelay_run h st session fuel hserver hping hopen hn hfree hfuel
  have hkey : mapGet (acceptRelay fuel h st).state.ConnectionPool
      (candidate (paddedHostname h.readData) k) = some session := by
    rw [hstate]; exact mapGet_mapSet_self _ _ _
  have hzero : k = 0 ∨ mapGet st.ConnectionPool (paddedHostname h.readData) ≠ none := by
    cases k with
    | zero => exact Or.inl rfl
    | succ j => exact Or.inr (hbelow 0 (Nat.succ_pos j))
  refine ⟨handleRelayConnection_ok h session hserver hping hopen hn,
    paddedHostname_length _ hn, ?_, ?_, rfl, ⟨k, hout, hk, hbelow, hkey⟩, ?_, ?_⟩
  · simp [paddedHostname]
  · intro b hb
    simp only [paddedHostname, List.drop_left] at hb
    exact (List.mem_replicate.1 hb).2
  · intro hfreeName
    rcases hzero with h0 | h0
    · subst h0; exact hkey
    · exact absurd hfreeName h0
  · rcases hzero with h0 | h0
    · subst h0
      have : mapGet (acceptRelay fuel h st).state.ConnectionPool
          (paddedHostname h.readData) = some session := hkey
      rw [this]; exact Option.noConfusion
    · by_cases hsame : paddedHostname h.readData = candidate (paddedHostname h.readData) k
      · have : mapGet (acceptRelay fuel h st).state.ConnectionPool
            (paddedHostname h.readData) = some session := by
          rw [hsame]
          exact hkey
        rw [this]; exact Option.noConfusion
      · rw [hstate]
        show mapGet (mapSet _ _ _) _ ≠ none
        rw [mapGet_mapSet_ne _ _ _ _ hsame]
        exact h0

/-- C8 as amended, at a handshake whose read fails with nothing delivered, on a relay
that already holds a session under the zero identifier. -/
theorem handshake_identifier_padded_and_registered_witness :
    (readFails ⟨2⟩).server = .ok ⟨2⟩ ∧ (readFails ⟨2⟩).ping = none ∧
    (readFails ⟨2⟩).initOpen = none ∧ (readFails ⟨2⟩).readData.length ≤ 255 ∧
    zeroNamedRelay.Mutex = false ∧ mapLen zeroNamedRelay.ConnectionPool < 2 ∧
    handleRelayConnection (readFails ⟨2⟩)
      = .returned (.accepted ⟨2⟩ (paddedHostname (readFails ⟨2⟩).readData)) ∧
    (paddedHostname (readFails ⟨2⟩).readData).length = 255 ∧
    (paddedHostname (readFails ⟨2⟩).readData).take (readFails ⟨2⟩).readData.length
      = (readFails ⟨2⟩).readData ∧
    (∀ b ∈ (paddedHostname (readFails ⟨2⟩).readData).drop (readFails ⟨2⟩).readData.length,
      b = 0) ∧
    paddedHostname [] = zeroHostname ∧
    (∃ k,
      (acceptRelay 2 (readFails ⟨2⟩) zeroNamedRelay).outcome
        = .returned (some (candidate (paddedHostname (readFails ⟨2⟩).readData) k)) ∧
      mapGet zeroNamedRelay.ConnectionPool
        (candidate (paddedHostname (readFails ⟨2⟩).readData) k) = none ∧
      (∀ j, j < k →
        mapGet zeroNamedRelay.ConnectionPool
          (candidate (paddedHostname (readFails ⟨2⟩).readData) j) ≠ none) ∧
      mapGet (acceptRelay 2 (readFails ⟨2⟩) zeroNamedRelay).state.ConnectionPool
        (candidate (paddedHostname (readFails ⟨2⟩).readData) k) = some ⟨2⟩) ∧
    (mapGet zeroNamedRelay.ConnectionPool (paddedHostname (readFails ⟨2⟩).readData) = none →
      mapGet (acceptRelay 2 (readFails ⟨2⟩) zeroNamedRelay).state.ConnectionPool
        (paddedHostname (readFails ⟨2⟩).readData) = some ⟨2⟩) ∧
    mapGet (acceptRelay 2 (readFails ⟨2⟩) zeroNamedRelay).state.ConnectionPool
      (paddedHostname (readFails ⟨2⟩).readData) ≠ none :=
  ⟨rfl, rfl, rfl, by decide, rfl, by decide,
    handshake_identifier_padded_and_registered (readFails ⟨2⟩) zeroNamedRelay ⟨2⟩ 2
      rfl rfl rfl (by decide) rfl (by decide)⟩

/-! ## Relaying -/

theorem mem_closeEndpoint_self (ep : Endpoint) (closed : List Endpoint) :
    ep ∈ closeEndpoint ep closed := by
  unfold closeEndpoint
  split
  · assumption
  · exact List.mem_cons_self _ _

theorem mem_closeEndpoint_of_mem (ep other : Endpoint) (closed : List Endpoint)
    (h : other ∈ closed) : other ∈ closeEndpoint ep closed := by
  unfold closeEndpoint
  split
  · exact h
  · exact List.mem_cons_of_mem _ h

/-- C9: however the copy from src to dst ends (end of stream, read error, write
error), relay then closes dst and src, in that order and after the copy has ended,
and nothing closed before is reopened; the same holds for the task relaying the other
way, so whichever of the two copies of a forwarded connection ends, both endpoints are
closed. -/
theorem relay_closes_both_endpoints (how : CopyEnd) (src dst : Endpoint)
    (closed : List Endpoint) :
    (relay how src dst closed).2 = [.copyEnded src dst how, .close dst, .close src] ∧
    src ∈ (relay how src dst closed).1 ∧
    dst ∈ (relay how src dst closed).1 ∧
    (∀ ep ∈ closed, ep ∈ (relay how src dst closed).1) ∧
    src ∈ (relay how dst src closed).1 ∧
    dst ∈ (relay how dst src closed).1 := by
  refine ⟨rfl, ?_, ?_, ?_, ?_, ?_⟩
  · exact mem_closeEndpoint_self _ _
  · exact mem_closeEndpoint_of_mem _ _ _ (mem_closeEndpoint_self _ _)
  · intro ep hep
    exact mem_closeEndpoint_of_mem _ _ _ (mem_closeEndpoint_of_mem _ _ _ hep)
  · exact mem_closeEndpoint_of_mem _ _ _ (mem_closeEndpoint_self _ _)
  · exact mem_closeEndpoint_self _ _

/-! ## The lock -/

/-- C10 fails on the failing dialogue: on the relay holding "a" and "b" with the lock
free, SelectSession asks the operator while it holds the lock, and when the dialogue
is aborted it returns the failure with the lock still held. -/
theorem SelectSession_failure_returns_with_lock_held :
    twoUnboundRelay.Mutex = false ∧
    (SelectSession abortedPrompt twoUnboundRelay).outcome = .returned (some ⟨7⟩) ∧
    (SelectSession abortedPrompt twoUnboundRelay).state.Mutex = true ∧
    Event.prompt (mapKeys twoUnboundRelay.ConnectionPool) true
      ∈ (SelectSession abortedPrompt twoUnboundRelay).trace := by
  decide

/-- C10 as amended: started with the lock free, the registration step (fuel beyond the
pool size), RemoveSession, SelectSession on a single-entry pool and SelectSession on
a larger pool whose dialogue succeeds all return with the lock free; the first three
hold no dialogue with the operator, and the last holds exactly one, between taking
and releasing the lock, that is with the lock held. -/
theorem lock_free_after_each_operation (oracle : Oracle) (stR stD stS : LigoloRelay)
    (p : GoString) (s : YamuxSession) (fuel : Nat)
    (hR : stR.Mutex = false) (hfuel : mapLen stR.ConnectionPool < fuel)
    (hD : stD.Mutex = false)
    (hS : stS.Mutex = false)
    (hsel : mapLen stS.ConnectionPool = 1 ∨
      (1 < mapLen stS.ConnectionPool ∧ (oracle (mapKeys stS.ConnectionPool)).2 = none)) :
    ((∃ id, (register fuel p s stR).outcome = .returned id) ∧
      (register fuel p s stR).state.Mutex = false ∧
      (register fuel p s stR).trace = [.lock, .unlock]) ∧
    ((RemoveSession stD).outcome = .returned () ∧
      (RemoveSession stD).state.Mutex = false ∧
      (RemoveSession stD).trace = [.removeSession, .lock, .unlock]) ∧
    ((SelectSession oracle stS).outcome = .returned none ∧
      (SelectSession oracle stS).state.Mutex = false ∧
      (mapLen stS.ConnectionPool = 1 →
        (SelectSession oracle stS).trace = [.selectSession, .lock, .unlock]) ∧
      (1 < mapLen stS.ConnectionPool →
        (SelectSession oracle stS).trace =
          [.selectSession, .lock, .prompt (mapKeys stS.ConnectionPool) true, .unlock])) := by
  refine ⟨?_, ?_, ?_⟩
  · obtain ⟨k, _, _, hrun⟩ := register_run stR p s fuel hR hfuel
    rw [hrun]
    exact ⟨⟨_, rfl⟩, hR, rfl⟩
  · rw [RemoveSession_run stD hD]
    exact ⟨rfl, hD, rfl⟩
  · rcases hsel with h1 | ⟨hlen, hok⟩
    · obtain ⟨x, hx⟩ := List.length_eq_one.1 h1
      have hmem : x ∈ mapKeys stS.ConnectionPool := by rw [hx]; simp
      have hget : mapGet stS.ConnectionPool x ≠ none :=
        fun e => (mapGet_eq_none_iff _ _).1 e hmem
      obtain ⟨v, hv⟩ := Option.ne_none_iff_exists'.1 hget
      rw [SelectSession_single oracle stS x v hS h1 hv]
      exact ⟨rfl, hS, fun _ => rfl, fun h => by omega⟩
    · rw [SelectSession_prompt_ok oracle stS hS hlen hok]
      exact ⟨rfl, hS, fun h => by omega, fun _ => rfl⟩

/-- C10 as amended, at a fresh relay for registration, the relay with "a" selected for
eviction, and the relay holding "a" and "b" with the first item chosen. -/
theorem lock_free_after_each_operation_witness :
    emptyRelay.Mutex = false ∧ mapLen emptyRelay.ConnectionPool < 1 ∧
    twoBoundRelay.Mutex = false ∧ twoUnboundRelay.Mutex = false ∧
    (mapLen twoUnboundRelay.ConnectionPool = 1 ∨
      (1 < mapLen twoUnboundRelay.ConnectionPool ∧
        (choosesFirst (mapKeys twoUnboundRelay.ConnectionPool)).2 = none)) ∧
    ((∃ id, (register 1 hostA ⟨1⟩ emptyRelay).outcome = .returned id) ∧
      (register 1 hostA ⟨1⟩ emptyRelay).state.Mutex = false ∧
      (register 1 hostA ⟨1⟩ emptyRelay).trace = [.lock, .unlock]) ∧
    ((RemoveSession twoBoundRelay).outcome = .returned () ∧
      (RemoveSession twoBoundRelay).state.Mutex = false ∧
      (RemoveSession twoBoundRelay).trace = [.removeSession, .lock, .unlock]) ∧
    ((SelectSession choosesFirst twoUnboundRelay).outcome = .returned none ∧
      (SelectSession choosesFirst twoUnboundRelay).state.Mutex = false ∧
      (mapLen twoUnboundRelay.ConnectionPool = 1 →
        (SelectSession choosesFirst twoUnboundRelay).trace
          = [.selectSession, .lock, .unlock]) ∧
      (1 < mapLen twoUnboundRelay.ConnectionPool →
        (SelectSession choosesFirst twoUnboundRelay).trace =
          [.selectSession, .lock, .prompt (mapKeys twoUnboundRelay.ConnectionPool) true,
            .unlock])) :=
  ⟨rfl, by decide, rfl, rfl, Or.inr (by decide),
    lock_free_after_each_operation choosesFirst emptyRelay twoBoundRelay twoUnboundRelay
      hostA ⟨1⟩ 1 rfl (by decide) rfl rfl (Or.inr (by decide))⟩

end Ligolo
